import Mathlib

set_option linter.unusedVariables false

/-! Verification of the MISHPOSE pitch/key transposition engine and MIDI
byte-stream encoder, shallowly embedded from
`src/client/src/services/musicProcessor.ts`. Machine integers of the source
are JavaScript numbers holding exact integers; they are modelled as `Int`,
with the JavaScript remainder, flooring division, `ToInt32` and `ToUint8`
conversions made explicit where the source relies on them. A JavaScript
computation that reads `undefined` out of an array (and later throws when the
value is used) is modelled as `none`. -/

/-- JavaScript remainder `a % b` for a positive modulus `b`: the result takes
the sign of the dividend `a` (unlike the `%` of Lean on `Int`, which is
Euclidean and never negative for a positive modulus). -/
def jsRem (a b : Int) : Int := if 0 ≤ a then a % b else -((-a) % b)

/-- A MusicXML pitch element as read by `transposeMusicXML`: step letter text,
octave and alteration (the alter element defaults to 0 when absent; an
explicit alter of 0 is not distinguished since the transposer rewrites the
element from scratch anyway). -/
structure Pitch where
  step : String
  octave : Int
  alter : Int
deriving DecidableEq

/-- A MusicXML note: an optional pitch element (absent for rests or malformed
notes — both the transposer and the encoder skip such notes), a duration (in
divisions) and a type text. -/
structure Note where
  pitch : Option Pitch
  duration : Int
  type : String
deriving DecidableEq

/-- The attributes block carried by a measure: divisions, key signature
fifths, time signature and clef. -/
structure MeasureAttributes where
  divisions : Int
  fifths : Int
  beats : Int
  beatType : Int
  clefSign : String
  clefLine : Int
deriving DecidableEq

/-- A measure: an optional attributes block and an ordered note list. -/
structure Measure where
  attributes : Option MeasureAttributes
  notes : List Note
deriving DecidableEq

/-- A document: metadata plus an ordered measure list. -/
structure Document where
  title : String
  composer : String
  measures : List Measure
deriving DecidableEq

/-- The `noteMap` table inside `noteToMidi`: natural pitch classes of the
seven step letters. An unrecognized step has no entry (JS `undefined`).
Own keys only: a step string naming an inherited `Object.prototype` member
would reach that member through the prototype chain, but such strings lie
outside the A-G step domain of the data model that the pitch claims
quantify over, so the chain is not modelled here. -/
def noteMap (step : String) : Option Int :=
  if step = "C" then some 0
  else if step = "D" then some 2
  else if step = "E" then some 4
  else if step = "F" then some 5
  else if step = "G" then some 7
  else if step = "A" then some 9
  else if step = "B" then some 11
  else none

/-- `noteToMidi(step, octave, alter)` from the source:
`(octave + 1) * 12 + baseNote + alter` with `baseNote = noteMap[step] || 0`.
The `|| 0` collapses both a missing entry and the falsy entry 0 (step C)
to 0, hence `Option.getD`. -/
def noteToMidi (step : String) (octave : Int) (alter : Int) : Int :=
  (octave + 1) * 12 + (noteMap step).getD 0 + alter

/-- The `noteNames` array of `midiToNote`. -/
def noteNames : List String :=
  ["C", "C", "D", "D", "E", "F", "F", "G", "G", "A", "A", "B"]

/-- The `alterations` array of `midiToNote`. -/
def alterations : List Int := [0, 1, 0, 1, 0, 0, 1, 0, 1, 0, 1, 0]

/-- `midiToNote(midiNote)` from the source: `octave` is
`Math.floor(midiNote / 12) - 1` (for the positive divisor 12 the flooring
division of JS agrees with `/` of Lean on `Int`) and `noteIndex` is
`midiNote % 12` under the JS remainder. When `noteIndex` is in array range
the table entries are returned; otherwise the JS code reads `undefined` out
of both arrays (which makes the caller throw when writing the result back),
modelled as `none`. -/
def midiToNote (midiNote : Int) : Option Pitch :=
  if 0 ≤ jsRem midiNote 12 ∧ jsRem midiNote 12 < 12 then
    some { step := noteNames.getD (jsRem midiNote 12).toNat ""
         , octave := midiNote / 12 - 1
         , alter := alterations.getD (jsRem midiNote 12).toNat 0 }
  else none

/-- The absolute MIDI value of a pitch record. -/
def pitchMidi (p : Pitch) : Int := noteToMidi p.step p.octave p.alter

/-- The per-pitch work of `transposeMusicXML`: convert to MIDI, add the
semitone offset, decompose back. -/
def transposePitch (p : Pitch) (semitones : Int) : Option Pitch :=
  midiToNote (pitchMidi p + semitones)

/-- The `semitoneToFifthsMap` record literal in `transposeKeySignature`
(the key 12 is present in the source but unreachable after reduction). -/
def semitoneToFifthsMap (n : Int) : Option Int :=
  if n = 0 then some 0
  else if n = 1 then some 7
  else if n = 2 then some 2
  else if n = 3 then some (-3)
  else if n = 4 then some 4
  else if n = 5 then some (-1)
  else if n = 6 then some 6
  else if n = 7 then some 1
  else if n = 8 then some (-4)
  else if n = 9 then some 3
  else if n = 10 then some (-2)
  else if n = 11 then some 5
  else if n = 12 then some 0
  else none

/-- `transposeKeySignature(fifths, semitones)` from the source: normalize the
offset with `((semitones % 12) + 12) % 12` under the JS remainder, look up
the fifths delta (`|| 0` again collapses a missing entry and the falsy entry
0), add it and clamp to [-7, 7] via `Math.max`/`Math.min`. -/
def transposeKeySignature (fifths semitones : Int) : Int :=
  let normalizedSemitones := jsRem (jsRem semitones 12 + 12) 12
  let fifthsChange := (semitoneToFifthsMap normalizedSemitones).getD 0
  max (-7) (min 7 (fifths + fifthsChange))

/-- Transposition of one note by `transposeMusicXML`: a note without a pitch
element is left alone (the DOM walk only visits pitch elements); a failed
decomposition makes the walk throw, which `transposeMusicXML` rethrows. -/
def transposeNote (n : Note) (semitones : Int) : Option Note :=
  match n.pitch with
  | none => some n
  | some p =>
    match transposePitch p semitones with
    | none => none
    | some q => some { n with pitch := some q }

/-- Transposition of a note list, propagating a thrown error. -/
def transposeNotes (semitones : Int) : List Note → Option (List Note)
  | [] => some []
  | n :: rest =>
    match transposeNote n semitones, transposeNotes semitones rest with
    | some m, some ms => some (m :: ms)
    | _, _ => none

/-- Transposition of one measure: every note is transposed and, when an
attributes block is present, its key fifths is rewritten by
`transposeKeySignature`; divisions, time signature and clef are untouched. -/
def transposeMeasure (m : Measure) (semitones : Int) : Option Measure :=
  match transposeNotes semitones m.notes with
  | none => none
  | some ns =>
    some { attributes := m.attributes.map
             (fun a => { a with fifths := transposeKeySignature a.fifths semitones })
         , notes := ns }

/-- Transposition of a measure list, propagating a thrown error. -/
def transposeMeasures (semitones : Int) : List Measure → Option (List Measure)
  | [] => some []
  | m :: rest =>
    match transposeMeasure m semitones, transposeMeasures semitones rest with
    | some m2, some ms => some (m2 :: ms)
    | _, _ => none

/-- `transposeMusicXML(musicXML, semitones)` over the structured document:
every pitch element is transposed and every key fifths is updated; title,
composer, durations, types, time signatures and clefs pass through the DOM
serialization untouched. -/
def transposeMusicXML (d : Document) (semitones : Int) : Option Document :=
  match transposeMeasures semitones d.measures with
  | none => none
  | some ms => some { title := d.title, composer := d.composer, measures := ms }

/-- The flattened note sequence of a document, in document order (what
`querySelectorAll` enumerates in `generateMIDI`). -/
def allNotes (d : Document) : List Note := d.measures.flatMap (fun m => m.notes)

/-- Every pitch element of a document, in document order. -/
def allPitches (d : Document) : List Pitch :=
  (allNotes d).filterMap (fun n => n.pitch)

/-- The absolute MIDI value of each note of a document (`none` for a note
without a pitch element). -/
def docValues (d : Document) : List (Option Int) :=
  (allNotes d).map (fun n => n.pitch.map pitchMidi)

/-- ToUint8: the conversion `new Blob([new Uint8Array(midiData)])` applies to
every pushed integer — reduction modulo 256. -/
def toUint8 (x : Int) : Nat := (x % 256).toNat

/-- ToInt32: the conversion JS bitwise operators apply to their operands. -/
def toInt32 (x : Int) : Int := (x + 2 ^ 31) % 2 ^ 32 - 2 ^ 31

/-- The four bytes `(trackLength >> N) & 0xFF` for N = 24, 16, 8, 0: a signed
right shift of the ToInt32 image is flooring division by a power of two
(Euclidean division, for these positive divisors), and masking an Int32 with
0xFF keeps its low byte, which is Euclidean reduction modulo 256. -/
def lengthField (trackLength : Nat) : List Int :=
  [ toInt32 trackLength / 16777216 % 256
  , toInt32 trackLength / 65536 % 256
  , toInt32 trackLength / 256 % 256
  , toInt32 trackLength % 256 ]

/-- The nine bytes `generateMIDI` pushes for one pitch-bearing note: Note-On
(status 0x90, velocity 0x64 = 100) after a zero delta, then Note-Off (status
0x80, velocity 0) after the fixed two-byte delta 0x83 0x60 (480 ticks). -/
def pitchEvents : Option Pitch → List Int
  | none => []
  | some p =>
    [0x00, 0x90, pitchMidi p, 0x64, 0x83, 0x60, 0x80, pitchMidi p, 0x00]

/-- The events a note contributes to `trackData` (nothing for a note without
a pitch element). -/
def noteEvents (n : Note) : List Int := pitchEvents n.pitch

/-- The `trackData` array of `generateMIDI`: two events per pitch-bearing
note, then the end-of-track meta event 00 FF 2F 00. -/
def trackData (d : Document) : List Int :=
  (allNotes d).flatMap noteEvents ++ [0x00, 0xFF, 0x2F, 0x00]

/-- `generateMIDI(musicXML)`: the MThd header chunk, the MTrk tag, the
big-endian track length, then the track data; the whole `midiData` array is
materialized as a `Uint8Array`. -/
def generateMIDI (d : Document) : List Nat :=
  (([0x4D, 0x54, 0x68, 0x64, 0x00, 0x00, 0x00, 0x06,
     0x00, 0x00, 0x00, 0x01, 0x00, 0x60]
    ++ [0x4D, 0x54, 0x72, 0x6B]
    ++ lengthField (trackData d).length
    ++ trackData d : List Int)).map toUint8

/-- The `INSTRUMENT_TRANSPOSITIONS` record: semitone offset per instrument. -/
def INSTRUMENT_TRANSPOSITIONS : List (String × Int) :=
  [ ("Bb Clarinet", 2), ("Eb Alto Saxophone", 9), ("Bb Tenor Saxophone", 14)
  , ("Eb Baritone Saxophone", 21), ("Bb Soprano Saxophone", 2)
  , ("F French Horn", 7)
  , ("Bb Trumpet", 2), ("Bb Flugelhorn", 2), ("Bb Trombone", 0)
  , ("Eb Tuba", 9), ("F Tuba", 7), ("Bb Euphonium", 2)
  , ("Violin", 0), ("Viola", 0), ("Cello", 0), ("Double Bass", 0)
  , ("Guitar", 0), ("Bass Guitar", 0) ]

/-- The own-key part of the property access
`INSTRUMENT_TRANSPOSITIONS[targetInstrument]`: the entries of the object
literal itself. -/
def lookupInstrument (name : String) : Option Int :=
  (INSTRUMENT_TRANSPOSITIONS.find? (fun kv => kv.1 == name)).map (fun kv => kv.2)

/-- The member names of `Object.prototype`, which a JS property access on an
object literal reaches through the prototype chain when the name is not an
own key. Every one of them yields a truthy value: a function, or (for
`__proto__`) the `Object.prototype` object itself. -/
def objectPrototypeMembers : List String :=
  [ "constructor", "hasOwnProperty", "isPrototypeOf", "propertyIsEnumerable"
  , "toLocaleString", "toString", "valueOf"
  , "__defineGetter__", "__defineSetter__", "__lookupGetter__"
  , "__lookupSetter__", "__proto__" ]

/-- The outcome of the JS property access `INSTRUMENT_TRANSPOSITIONS[name]`:
an own numeric entry, an inherited (truthy, non-numeric) `Object.prototype`
member, or `undefined`. -/
inductive JsLookup where
  | ownEntry (z : Int)
  | inherited
  | absent
deriving DecidableEq

/-- The full JS property access on the instrument table: own keys first,
then the prototype chain, then `undefined`. -/
def instrumentAccess (name : String) : JsLookup :=
  match lookupInstrument name with
  | some z => JsLookup.ownEntry z
  | none =>
    if objectPrototypeMembers.contains name then JsLookup.inherited
    else JsLookup.absent

/-- Step 2 of `processFile`:
`const semitones = INSTRUMENT_TRANSPOSITIONS[targetInstrument] || 0`.
An own entry is kept (`|| 0` only collapses the falsy entry 0 to itself);
a name absent from the whole prototype chain gives `undefined`, which
`|| 0` turns into 0; a name of an inherited `Object.prototype` member gives
that truthy member, which `|| 0` keeps, so `semitones` is not a number —
modelled as `none`. -/
def resolveSemitones (name : String) : Option Int :=
  match instrumentAccess name with
  | JsLookup.ownEntry z => some z
  | JsLookup.inherited => none
  | JsLookup.absent => some 0

/-- `transposeMusicXML` when `semitones` is a non-numeric inherited member:
for every pitch-bearing note `midiNote + semitones` is a string, both array
reads in the decomposition index at `NaN` (`undefined`), and the walk
throws; a document without pitch-bearing notes reaches only the key loop,
where the normalized offset is `NaN`, `map[NaN] || 0` is 0, and the fifths
is clamped unchanged. -/
def transposeMusicXMLNaN (d : Document) : Option Document :=
  if (allNotes d).all (fun n => n.pitch.isNone) then
    some { title := d.title, composer := d.composer
         , measures := d.measures.map (fun m =>
             { attributes := m.attributes.map
                 (fun a => { a with fifths := max (-7) (min 7 (a.fifths + 0)) })
             , notes := m.notes }) }
  else none

/-- Steps 2 and 3 of `processFile`: resolve the instrument offset and
transpose the recognized document (with the thrown-on-NaN behaviour when
the resolved value is not a number). -/
def processTranspose (d : Document) (name : String) : Option Document :=
  match resolveSemitones name with
  | some semitones => transposeMusicXML d semitones
  | none => transposeMusicXMLNaN d

/-- Modelled from the spec (section 8, MIDI structural validity scenario and
section 3 data model): the canonical sharp-preferring step table indexed by
`midi mod 12`. -/
def specStepTable : List String :=
  ["C", "C", "D", "D", "E", "F", "F", "G", "G", "A", "A", "B"]

/-- Modelled from the spec: the alterations that go with `specStepTable`,
+1 on the five chromatic pitch classes. -/
def specAlterTable : List Int := [0, 1, 0, 1, 0, 0, 1, 0, 1, 0, 1, 0]

/-- Modelled from the spec (section 4.1): the conventional 12-entry
semitone-to-fifths delta table, indexed by the semitone offset reduced
modulo 12 into [0, 11]. -/
def specDeltaTable : List Int := [0, 7, 2, -3, 4, -1, 6, 1, -4, 3, -2, 5]

/-- Modelled from the spec: the fifths delta of a semitone offset, the table
value at index `((semitones mod 12) + 12) mod 12` (mathematical modulus). -/
def specFifthsDelta (semitones : Int) : Int :=
  specDeltaTable.getD ((semitones % 12 + 12) % 12).toNat 0

/-- MIDI variable-length-quantity bytes of `n` with the continuation (high)
bit set on every byte — the non-final bytes of an encoding. -/
def vlqCont (n : Nat) : List Nat :=
  if n < 128 then [n + 128] else vlqCont (n / 128) ++ [n % 128 + 128]
termination_by n
decreasing_by exact Nat.div_lt_self (by omega) (by omega)

/-- MIDI variable-length-quantity encoding: 7 data bits per byte, high bit
set on all but the final byte. -/
def vlqEncode (n : Nat) : List Nat :=
  if n < 128 then [n] else vlqCont (n / 128) ++ [n % 128]

/-- Modelled from the spec (section 3 data model and section 4.2 header): the
tick count of a duration of a note: the duration field counts divisions at 4
per quarter note, and the header fixes 96 ticks per quarter note, hence 24
ticks per division. -/
def specDurationTicks (n : Note) : Int := n.duration * 24

/-- Big-endian 4-byte encoding of a length that fits in 32 bits. -/
def beBytes4 (n : Nat) : List Nat :=
  [n / 16777216 % 256, n / 65536 % 256, n / 256 % 256, n % 256]

/-- The four-note C major scale fragment document of the MIDI structural
validity scenario: C4, D4, E4, F4 quarters at divisions 4. -/
def fourNoteDoc : Document :=
  { title := "Example", composer := "Trad"
  , measures :=
    [ { attributes := some { divisions := 4, fifths := 0, beats := 4, beatType := 4
                           , clefSign := "G", clefLine := 2 }
      , notes :=
        [ { pitch := some { step := "C", octave := 4, alter := 0 }
          , duration := 4, type := "quarter" }
        , { pitch := some { step := "D", octave := 4, alter := 0 }
          , duration := 4, type := "quarter" }
        , { pitch := some { step := "E", octave := 4, alter := 0 }
          , duration := 4, type := "quarter" }
        , { pitch := some { step := "F", octave := 4, alter := 0 }
          , duration := 4, type := "quarter" } ] } ] }

/-- A one-note document spelled with a flat: written B flat 4 in F major. -/
def flatDoc : Document :=
  { title := "Flat", composer := "Trad"
  , measures :=
    [ { attributes := some { divisions := 4, fifths := -1, beats := 4, beatType := 4
                           , clefSign := "G", clefLine := 2 }
      , notes :=
        [ { pitch := some { step := "B", octave := 4, alter := -1 }
          , duration := 4, type := "quarter" } ] } ] }

/-- Erasure of exactly the data transposition is allowed to change in a
pitch: its whole content (presence is kept). -/
def erasePitchContent (p : Pitch) : Pitch := { step := "", octave := 0, alter := 0 }

/-- Erasure of the transposable data of a note: pitch content (duration and
type are kept). -/
def eraseNote (n : Note) : Note := { n with pitch := n.pitch.map erasePitchContent }

/-- Erasure of the transposable data of a measure: pitch contents and the
key fifths (divisions, time signature and clef are kept). -/
def eraseMeasure (m : Measure) : Measure :=
  { attributes := m.attributes.map (fun a => { a with fifths := 0 })
  , notes := m.notes.map eraseNote }

/-- Erasure of the transposable data of a document (title and composer are
kept). -/
def eraseDoc (d : Document) : Document :=
  { d with measures := d.measures.map eraseMeasure }

/-- A quarter note on middle C. -/
def quarterC4 : Note :=
  { pitch := some { step := "C", octave := 4, alter := 0 }
  , duration := 4, type := "quarter" }

/-- A one-note document: middle C as a quarter note. -/
def docQuarter : Document :=
  { title := "A", composer := "B"
  , measures := [ { attributes := none, notes := [ quarterC4 ] } ] }

/-- The same pitch sequence with a different duration and type: middle C as
a half note. -/
def docHalf : Document :=
  { title := "A", composer := "B"
  , measures :=
    [ { attributes := none
      , notes :=
        [ { pitch := some { step := "C", octave := 4, alter := 0 }
          , duration := 8, type := "half" } ] } ] }

/-- A nonnegative JS remainder by 12 agrees with the Euclidean remainder. -/
lemma jsRem_twelve_eq (m : Int) (h : 0 ≤ jsRem m 12) : jsRem m 12 = m % 12 := by
  unfold jsRem at h ⊢
  split_ifs at h ⊢ with hm
  · rfl
  · omega

/-- The JS remainder by 12 is a valid array index exactly for a nonnegative
dividend or a multiple of 12. -/
lemma jsRem_twelve_bounds (m : Int) (h : 0 ≤ m ∨ (12 : Int) ∣ m) :
    0 ≤ jsRem m 12 ∧ jsRem m 12 < 12 := by
  unfold jsRem
  split_ifs with hm <;> constructor <;> omega

/-- At every valid table index, the pitch class of the canonical step plus
its alteration is the index back again. -/
lemma tableMidi (r : Nat) (hr : r < 12) :
    (noteMap (noteNames.getD r "")).getD 0 + alterations.getD r 0 = (r : Int) := by
  interval_cases r <;> decide

/-- Whenever `midiToNote` yields a pitch, recomposing it gives the original
MIDI value back. -/
lemma midiToNote_value (m : Int) (p : Pitch) (h : midiToNote m = some p) :
    pitchMidi p = m := by
  unfold midiToNote at h
  split_ifs at h with hc
  obtain ⟨hc1, hc2⟩ := hc
  have hr : jsRem m 12 = m % 12 := jsRem_twelve_eq m hc1
  injection h with h
  subst h
  have ht := tableMidi (jsRem m 12).toNat (by omega)
  unfold pitchMidi noteToMidi
  dsimp only
  omega

/-- For a nonnegative MIDI value or a multiple of 12, the decomposition
succeeds and recomposes to the same value. -/
lemma midiToNote_total (m : Int) (h : 0 ≤ m ∨ (12 : Int) ∣ m) :
    ∃ p, midiToNote m = some p ∧ pitchMidi p = m := by
  have hc := jsRem_twelve_bounds m h
  have hs : midiToNote m = some
      { step := noteNames.getD (jsRem m 12).toNat ""
      , octave := m / 12 - 1
      , alter := alterations.getD (jsRem m 12).toNat 0 } := by
    unfold midiToNote
    rw [if_pos hc]
  exact ⟨_, hs, midiToNote_value m _ hs⟩

/-- Claim C1 (amended): for every pitch with a recognized step letter and
every integer semitone offset whose transposed absolute value is nonnegative
or a multiple of 12, the decomposition succeeds and the absolute MIDI value
of the transposed pitch is the original absolute value plus the offset. For
a negative transposed value that is not a multiple of 12 the JS remainder is
negative, both table reads yield `undefined`, and the equation fails. -/
theorem transposePitch_value_roundtrip (step : String) (octave alter semitones : Int)
    (hstep : (noteMap step).isSome = true)
    (h : 0 ≤ noteToMidi step octave alter + semitones ∨
         (12 : Int) ∣ (noteToMidi step octave alter + semitones)) :
    ∃ q, transposePitch { step := step, octave := octave, alter := alter } semitones
           = some q ∧
      pitchMidi q = noteToMidi step octave alter + semitones := by
  have hrt := midiToNote_total (noteToMidi step octave alter + semitones) h
  simpa [transposePitch, pitchMidi] using hrt

/-- Claim C1 witness: transposing middle C up 2 semitones. -/
theorem transposePitch_value_roundtrip_witness :
    (noteMap "C").isSome = true ∧
    (0 ≤ noteToMidi "C" 4 0 + 2 ∨ (12 : Int) ∣ (noteToMidi "C" 4 0 + 2)) ∧
    ∃ q, transposePitch { step := "C", octave := 4, alter := 0 } 2 = some q ∧
      pitchMidi q = noteToMidi "C" 4 0 + 2 :=
  ⟨by decide, by decide, transposePitch_value_roundtrip "C" 4 0 2 (by decide) (by decide)⟩

/-- Claim C1 counterexample: transposing middle C down 61 semitones reaches
MIDI value -1; the decomposition reads `undefined` out of both tables, so no
transposed pitch with the promised absolute value exists. -/
theorem transposePitch_negative_breaks :
    ¬ ∃ q, transposePitch { step := "C", octave := 4, alter := 0 } (-61) = some q ∧
        pitchMidi q = noteToMidi "C" 4 0 + (-61) := by
  rintro ⟨q, hq, -⟩
  have h0 : transposePitch { step := "C", octave := 4, alter := 0 } (-61) = none := by
    decide
  rw [h0] at hq
  exact Option.noConfusion hq

/-- Claim C4 counterexample: absolute MIDI value 79 decomposes to G natural
in octave 5 (79 mod 12 = 7, the table entry (G, 0)), not to G sharp as the
spec scenario asserts. -/
theorem midi79_not_g_sharp :
    midiToNote 79 ≠ some { step := "G", octave := 5, alter := 1 } := by decide

/-- Claim C4 (amended): transposing (C, 0, 4) by +2 yields (D, 0, 4), and
transposing the written B flat 4 (absolute MIDI 70) by +9 yields absolute
MIDI 79, which decomposes to (G, 0, octave 5). -/
theorem transpose_concrete_scenarios :
    transposePitch { step := "C", octave := 4, alter := 0 } 2 =
      some { step := "D", octave := 4, alter := 0 } ∧
    pitchMidi { step := "B", octave := 4, alter := -1 } = 70 ∧
    transposePitch { step := "B", octave := 4, alter := -1 } 9 =
      some { step := "G", octave := 5, alter := 0 } ∧
    pitchMidi { step := "G", octave := 5, alter := 0 } = 79 := by decide

/-- Claim C5: on every nonnegative MIDI value, `midiToNote` returns exactly
the canonical sharp-preferring table entry at index `m mod 12` together with
octave `floor(m / 12) - 1`. -/
theorem midiToNote_matches_table (m : Nat) :
    midiToNote m = some { step := specStepTable.getD (m % 12) ""
                        , octave := ((m / 12 : Nat) : Int) - 1
                        , alter := specAlterTable.getD (m % 12) 0 } := by
  have h1 : jsRem (m : Int) 12 = ((m % 12 : Nat) : Int) := by
    unfold jsRem
    split_ifs with hm <;> omega
  have h2 : ((m : Int) / 12) = ((m / 12 : Nat) : Int) := by omega
  have h3 : ((m % 12 : Nat) : Int).toNat = m % 12 := by omega
  unfold midiToNote
  rw [h1, h2, h3, if_pos (by constructor <;> omega)]
  rw [show noteNames = specStepTable from rfl, show alterations = specAlterTable from rfl]

/-- The double-remainder normalization in `transposeKeySignature` computes
the Euclidean remainder modulo 12. -/
lemma jsRem_normalize (s : Int) : jsRem (jsRem s 12 + 12) 12 = s % 12 := by
  unfold jsRem
  split_ifs <;> omega

/-- The fifths-delta lookup (with its `|| 0` default) agrees with the spec
table at the normalized offset. -/
lemma delta_eq (s : Int) :
    (semitoneToFifthsMap (s % 12)).getD 0 = specFifthsDelta s := by
  have h12 : (s % 12 + 12) % 12 = s % 12 := by omega
  unfold specFifthsDelta
  rw [h12]
  have hcase : s % 12 = 0 ∨ s % 12 = 1 ∨ s % 12 = 2 ∨ s % 12 = 3 ∨ s % 12 = 4 ∨
      s % 12 = 5 ∨ s % 12 = 6 ∨ s % 12 = 7 ∨ s % 12 = 8 ∨ s % 12 = 9 ∨
      s % 12 = 10 ∨ s % 12 = 11 := by omega
  rcases hcase with h|h|h|h|h|h|h|h|h|h|h|h <;> rw [h] <;> decide

/-- Claim C3: the transposed key signature is the clamp to [-7, 7] of the
old fifths plus the conventional table delta at the offset reduced modulo 12
into [0, 11]; consequently a starting fifths in [-7, 7] stays in [-7, 7]. -/
theorem transposeKeySignature_correct (fifths semitones : Int) :
    transposeKeySignature fifths semitones =
      max (-7) (min 7 (fifths + specFifthsDelta semitones)) ∧
    (-7 ≤ fifths → fifths ≤ 7 →
      -7 ≤ transposeKeySignature fifths semitones ∧
        transposeKeySignature fifths semitones ≤ 7) := by
  have he : transposeKeySignature fifths semitones =
      max (-7) (min 7 (fifths + specFifthsDelta semitones)) := by
    simp only [transposeKeySignature]
    rw [jsRem_normalize, delta_eq]
  refine ⟨he, fun hlo hhi => ?_⟩
  rw [he]
  exact ⟨le_max_left _ _, max_le (by norm_num) (min_le_left _ _)⟩

/-- Claim C3 witness: concert C (fifths 0) transposed by 2 semitones. -/
theorem transposeKeySignature_correct_witness :
    transposeKeySignature 0 2 = max (-7) (min 7 (0 + specFifthsDelta 2)) ∧
    (-7 ≤ transposeKeySignature 0 2 ∧ transposeKeySignature 0 2 ≤ 7) :=
  ⟨(transposeKeySignature_correct 0 2).1,
   (transposeKeySignature_correct 0 2).2 (by norm_num) (by norm_num)⟩

/-- A fifths value already in [-7, 7] is unchanged by a zero-semitone key
transposition. -/
lemma transposeKeySignature_zero (f : Int) (h1 : -7 ≤ f) (h2 : f ≤ 7) :
    transposeKeySignature f 0 = f := by
  simp only [transposeKeySignature]
  rw [jsRem_normalize]
  norm_num [semitoneToFifthsMap]
  omega

/-- Zero-semitone transposition of one note: it succeeds when the pitch has
a nonnegative absolute value, preserves that value together with duration
and type, and returns the note unchanged when the spelling is canonical. -/
lemma transposeNote_zero (n : Note) (h : ∀ p, n.pitch = some p → 0 ≤ pitchMidi p) :
    ∃ m, transposeNote n 0 = some m ∧
      m.pitch.map pitchMidi = n.pitch.map pitchMidi ∧
      m.duration = n.duration ∧ m.type = n.type ∧
      ((∀ p, n.pitch = some p → midiToNote (pitchMidi p) = some p) → m = n) := by
  cases hp : n.pitch with
  | none =>
    exact ⟨n, by simp [transposeNote, hp], by rw [hp], rfl, rfl, fun _ => rfl⟩
  | some p =>
    have h0 : 0 ≤ pitchMidi p := h p hp
    obtain ⟨q, hq, hval⟩ := midiToNote_total (pitchMidi p) (Or.inl h0)
    have htp : transposePitch p 0 = some q := by
      rw [transposePitch, add_zero]
      exact hq
    refine ⟨{ n with pitch := some q }, ?_, ?_, rfl, rfl, ?_⟩
    · simp [transposeNote, hp, htp]
    · simp [hp, hval]
    · intro hcanon
      have hcp := hcanon p rfl
      rw [hcp] at hq
      have hqp : q = p := (Option.some.inj hq).symm
      cases n with
      | mk pi du ty =>
        simp only at hp
        rw [hqp, ← hp]

/-- Zero-semitone transposition of a note list. -/
lemma transposeNotes_zero (ns : List Note)
    (h : ∀ n ∈ ns, ∀ p, n.pitch = some p → 0 ≤ pitchMidi p) :
    ∃ ms, transposeNotes 0 ns = some ms ∧
      ms.map (fun n => n.pitch.map pitchMidi) = ns.map (fun n => n.pitch.map pitchMidi) ∧
      ((∀ n ∈ ns, ∀ p, n.pitch = some p → midiToNote (pitchMidi p) = some p) →
        ms = ns) := by
  induction ns with
  | nil => exact ⟨[], rfl, rfl, fun _ => rfl⟩
  | cons n rest ih =>
    obtain ⟨m, hm, hmv, hmd, hmt, hmc⟩ := transposeNote_zero n (h n (by simp))
    obtain ⟨ms, hms, hmsv, hmsc⟩ := ih (fun x hx => h x (by simp [hx]))
    refine ⟨m :: ms, ?_, ?_, ?_⟩
    · simp [transposeNotes, hm, hms]
    · simp [hmv, hmsv]
    · intro hcanon
      rw [hmc (hcanon n (by simp)), hmsc (fun x hx => hcanon x (by simp [hx]))]

/-- Zero-semitone transposition of one measure. -/
lemma transposeMeasure_zero (m : Measure)
    (h : ∀ n ∈ m.notes, ∀ p, n.pitch = some p → 0 ≤ pitchMidi p) :
    ∃ m2, transposeMeasure m 0 = some m2 ∧
      m2.notes.map (fun n => n.pitch.map pitchMidi) =
        m.notes.map (fun n => n.pitch.map pitchMidi) ∧
      ((∀ n ∈ m.notes, ∀ p, n.pitch = some p → midiToNote (pitchMidi p) = some p) →
       (∀ a, m.attributes = some a → -7 ≤ a.fifths ∧ a.fifths ≤ 7) → m2 = m) := by
  obtain ⟨ms, hms, hv, hc⟩ := transposeNotes_zero m.notes h
  refine ⟨{ attributes := m.attributes.map
              (fun a => { a with fifths := transposeKeySignature a.fifths 0 })
          , notes := ms }, ?_, by simpa using hv, ?_⟩
  · simp [transposeMeasure, hms]
  · intro hcanon hkey
    cases m with
    | mk attr notes =>
      simp only at hms hv hc hkey ⊢
      rw [hc hcanon]
      cases attr with
      | none => rfl
      | some a =>
        obtain ⟨h1, h2⟩ := hkey a rfl
        simp [transposeKeySignature_zero a.fifths h1 h2]

/-- Zero-semitone transposition of a measure list. -/
lemma transposeMeasures_zero (l : List Measure)
    (h : ∀ mm ∈ l, ∀ n ∈ mm.notes, ∀ p, n.pitch = some p → 0 ≤ pitchMidi p) :
    ∃ l2, transposeMeasures 0 l = some l2 ∧
      (l2.flatMap (fun mm => mm.notes)).map (fun n => n.pitch.map pitchMidi) =
        (l.flatMap (fun mm => mm.notes)).map (fun n => n.pitch.map pitchMidi) ∧
      ((∀ mm ∈ l, ∀ n ∈ mm.notes, ∀ p, n.pitch = some p →
          midiToNote (pitchMidi p) = some p) →
       (∀ mm ∈ l, ∀ a, mm.attributes = some a → -7 ≤ a.fifths ∧ a.fifths ≤ 7) →
        l2 = l) := by
  induction l with
  | nil => exact ⟨[], rfl, rfl, fun _ _ => rfl⟩
  | cons mm rest ih =>
    obtain ⟨m2, hm2, hv2, hc2⟩ := transposeMeasure_zero mm (h mm (by simp))
    obtain ⟨l2, hl2, hvl, hcl⟩ := ih (fun x hx => h x (by simp [hx]))
    refine ⟨m2 :: l2, ?_, ?_, ?_⟩
    · simp [transposeMeasures, hm2, hl2]
    · simp [List.flatMap_cons, hv2, hvl]
    · intro hcanon hkey
      rw [hc2 (hcanon mm (by simp)) (hkey mm (by simp)),
          hcl (fun x hx => hcanon x (by simp [hx])) (fun x hx => hkey x (by simp [hx]))]

/-- Zero-semitone transposition of a document: shared backbone for the
identity and unknown-instrument claims. -/
lemma transpose_zero_main (d : Document)
    (hval : ∀ p ∈ allPitches d, 0 ≤ pitchMidi p) :
    ∃ d2, transposeMusicXML d 0 = some d2 ∧ docValues d2 = docValues d ∧
      ((∀ p ∈ allPitches d, midiToNote (pitchMidi p) = some p) →
       (∀ mm ∈ d.measures, ∀ a, mm.attributes = some a →
          -7 ≤ a.fifths ∧ a.fifths ≤ 7) →
        d2 = d) := by
  have hmem : ∀ mm ∈ d.measures, ∀ n ∈ mm.notes, ∀ p, n.pitch = some p →
      p ∈ allPitches d := by
    intro mm hmm n hn p hp
    simp only [allPitches, allNotes, List.mem_filterMap, List.mem_flatMap]
    exact ⟨n, ⟨mm, hmm, hn⟩, hp⟩
  obtain ⟨l2, hl2, hv, hc⟩ := transposeMeasures_zero d.measures
    (fun mm hmm n hn p hp => hval p (hmem mm hmm n hn p hp))
  refine ⟨{ title := d.title, composer := d.composer, measures := l2 }, ?_, ?_, ?_⟩
  · simp [transposeMusicXML, hl2]
  · simpa [docValues, allNotes] using hv
  · intro hcanon hkey
    have hl : l2 = d.measures :=
      hc (fun mm hmm n hn p hp => hcanon p (hmem mm hmm n hn p hp)) hkey
    rw [hl]

/-- Claim C6 counterexample: transposing by 0 does not return the document
unchanged — the flat spelling B flat 4 is respelled to the canonical sharp
form A sharp 4, so the spelling of a note changes even at offset 0. -/
theorem transpose_zero_respells_flat :
    transposeMusicXML flatDoc 0 ≠ some flatDoc := by decide

/-- Claim C6 (amended): for a document all of whose pitches have nonnegative
absolute MIDI values, transposing by 0 succeeds and preserves every absolute
pitch value; the document itself is returned unchanged when additionally
every pitch is already in the canonical sharp-preferring spelling and every
key fifths lies in [-7, 7] (a non-canonical spelling, such as a flat, is
respelled, so spelling preservation does not hold in general). -/
theorem transpose_zero_identity (d : Document)
    (hval : ∀ p ∈ allPitches d, 0 ≤ pitchMidi p) :
    ∃ d2, transposeMusicXML d 0 = some d2 ∧ docValues d2 = docValues d ∧
      ((∀ p ∈ allPitches d, midiToNote (pitchMidi p) = some p) →
       (∀ mm ∈ d.measures, ∀ a, mm.attributes = some a →
          -7 ≤ a.fifths ∧ a.fifths ≤ 7) →
        d2 = d) :=
  transpose_zero_main d hval

/-- Claim C6 witness: the canonical four-note scale document. -/
theorem transpose_zero_identity_witness :
    (∀ p ∈ allPitches fourNoteDoc, 0 ≤ pitchMidi p) ∧
    ∃ d2, transposeMusicXML fourNoteDoc 0 = some d2 ∧
      docValues d2 = docValues fourNoteDoc ∧
      ((∀ p ∈ allPitches fourNoteDoc, midiToNote (pitchMidi p) = some p) →
       (∀ mm ∈ fourNoteDoc.measures, ∀ a, mm.attributes = some a →
          -7 ≤ a.fifths ∧ a.fifths ≤ 7) →
        d2 = fourNoteDoc) :=
  ⟨by decide, transpose_zero_identity fourNoteDoc (by decide)⟩

/-- Claim C8 counterexample: the name toString is not present in the
instrument table, yet the property access finds the inherited truthy
`Object.prototype.toString`, which `|| 0` keeps — the offset does not
resolve to 0, and processing a perfectly well-formed document throws, so
the resolve-to-0, equals-transpose(D, 0) and no-error clauses all fail. -/
theorem unknown_instrument_toString_throws :
    (∀ kv ∈ INSTRUMENT_TRANSPOSITIONS, kv.1 ≠ "toString") ∧
    resolveSemitones "toString" ≠ some 0 ∧
    processTranspose fourNoteDoc "toString" = none := by
  decide

/-- Claim C8 (amended): an instrument name that is neither an own key of
the table nor the name of an inherited `Object.prototype` member resolves
to a semitone offset of 0 and the processed result is exactly
transpose(D, 0); for documents all of whose pitches have nonnegative
absolute MIDI values this succeeds with every absolute pitch value
unchanged. An absent name that does name an `Object.prototype` member
resolves to the inherited truthy method instead, and a document with a
negative-valued pitch makes even the zero-offset transposition fail, so
neither case is an unconditional no-op. -/
theorem processTranspose_unknown_noop (name : String) (d : Document)
    (hname : instrumentAccess name = JsLookup.absent) :
    resolveSemitones name = some 0 ∧
    processTranspose d name = transposeMusicXML d 0 ∧
    ((∀ p ∈ allPitches d, 0 ≤ pitchMidi p) →
      ∃ d2, processTranspose d name = some d2 ∧ docValues d2 = docValues d) := by
  have h0 : resolveSemitones name = some 0 := by
    simp [resolveSemitones, hname]
  refine ⟨h0, by simp [processTranspose, h0], fun hval => ?_⟩
  obtain ⟨d2, hd2, hv, -⟩ := transpose_zero_main d hval
  exact ⟨d2, by simp [processTranspose, h0, hd2], hv⟩

/-- Claim C8 witness: the unknown name Kazoo (no own key, no inherited
member) on the four-note document. -/
theorem processTranspose_unknown_noop_witness :
    resolveSemitones "Kazoo" = some 0 ∧
    processTranspose fourNoteDoc "Kazoo" = transposeMusicXML fourNoteDoc 0 ∧
    ∃ d2, processTranspose fourNoteDoc "Kazoo" = some d2 ∧
      docValues d2 = docValues fourNoteDoc :=
  ⟨(processTranspose_unknown_noop "Kazoo" fourNoteDoc (by decide)).1,
   (processTranspose_unknown_noop "Kazoo" fourNoteDoc (by decide)).2.1,
   (processTranspose_unknown_noop "Kazoo" fourNoteDoc (by decide)).2.2 (by decide)⟩

/-- A transposed note differs from the original at most in its pitch
content. -/
lemma transposeNote_frame (n m : Note) (s : Int) (h : transposeNote n s = some m) :
    eraseNote m = eraseNote n := by
  unfold transposeNote at h
  cases hp : n.pitch with
  | none =>
    rw [hp] at h
    injection h with h
    rw [← h]
  | some p =>
    rw [hp] at h
    dsimp only at h
    cases hq : transposePitch p s with
    | none =>
      rw [hq] at h
      exact Option.noConfusion h
    | some q =>
      rw [hq] at h
      injection h with h
      rw [← h]
      simp [eraseNote, hp, erasePitchContent]

/-- A transposed note list differs from the original at most in pitch
contents. -/
lemma transposeNotes_frame (s : Int) (ns ms : List Note)
    (h : transposeNotes s ns = some ms) : ms.map eraseNote = ns.map eraseNote := by
  induction ns generalizing ms with
  | nil =>
    unfold transposeNotes at h
    injection h with h
    rw [← h]
  | cons n rest ih =>
    unfold transposeNotes at h
    cases h1 : transposeNote n s with
    | none =>
      rw [h1] at h
      exact Option.noConfusion h
    | some m0 =>
      cases h2 : transposeNotes s rest with
      | none =>
        rw [h1, h2] at h
        exact Option.noConfusion h
      | some ms0 =>
        rw [h1, h2] at h
        injection h with h
        rw [← h]
        simp [transposeNote_frame n m0 s h1, ih ms0 h2]

/-- A transposed measure differs from the original at most in pitch contents
and the key fifths. -/
lemma transposeMeasure_frame (m m2 : Measure) (s : Int)
    (h : transposeMeasure m s = some m2) : eraseMeasure m2 = eraseMeasure m := by
  unfold transposeMeasure at h
  cases hn : transposeNotes s m.notes with
  | none =>
    rw [hn] at h
    exact Option.noConfusion h
  | some ns =>
    rw [hn] at h
    injection h with h
    rw [← h]
    unfold eraseMeasure
    simp only [transposeNotes_frame s m.notes ns hn]
    cases m.attributes with
    | none => rfl
    | some a => rfl

/-- A transposed measure list differs from the original at most in pitch
contents and key fifths. -/
lemma transposeMeasures_frame (s : Int) (l l2 : List Measure)
    (h : transposeMeasures s l = some l2) :
    l2.map eraseMeasure = l.map eraseMeasure := by
  induction l generalizing l2 with
  | nil =>
    unfold transposeMeasures at h
    injection h with h
    rw [← h]
  | cons mm rest ih =>
    unfold transposeMeasures at h
    cases h1 : transposeMeasure mm s with
    | none =>
      rw [h1] at h
      exact Option.noConfusion h
    | some m2 =>
      cases h2 : transposeMeasures s rest with
      | none =>
        rw [h1, h2] at h
        exact Option.noConfusion h
      | some ms0 =>
        rw [h1, h2] at h
        injection h with h
        rw [← h]
        simp [transposeMeasure_frame mm m2 s h1, ih ms0 h2]

/-- Claim C9: whenever transposition succeeds, erasing exactly the pitch
contents and the key fifths of input and output gives identical documents:
durations, types, time signatures, clefs, divisions, pitch-element presence,
title and composer all pass through unchanged. -/
theorem transpose_frame (d : Document) (s : Int) (d2 : Document)
    (h : transposeMusicXML d s = some d2) : eraseDoc d2 = eraseDoc d := by
  unfold transposeMusicXML at h
  cases hm : transposeMeasures s d.measures with
  | none =>
    rw [hm] at h
    exact Option.noConfusion h
  | some l2 =>
    rw [hm] at h
    injection h with h
    rw [← h]
    simp [eraseDoc, transposeMeasures_frame s d.measures l2 hm]

/-- Claim C9 witness: the four-note document transposed up 2 semitones. -/
theorem transpose_frame_witness :
    eraseDoc ((transposeMusicXML fourNoteDoc 2).getD fourNoteDoc) =
      eraseDoc fourNoteDoc :=
  transpose_frame fourNoteDoc 2 _ (by decide)

/-- For a track length below 2^32 (the only lengths a JS array can reach),
the four pushed bytes are the big-endian encoding of the length. -/
lemma lengthField_maps (n : Nat) (h : n < 2 ^ 32) :
    (lengthField n).map toUint8 = beBytes4 n := by
  simp only [lengthField, toUint8, toInt32, beBytes4, List.map_cons, List.map_nil,
    List.cons.injEq, and_true]
  refine ⟨?_, ?_, ?_, ?_⟩ <;> omega

/-- Claim C2: for every document (with a realizable track size), the encoder
output is exactly the 14 fixed header bytes, the MTrk tag, the big-endian
byte count of the event stream that follows (end-of-track marker included),
then that event stream; and the output ends with 00 FF 2F 00. -/
theorem generateMIDI_structure (d : Document)
    (h : (trackData d).length < 2 ^ 32) :
    ∃ events : List Nat,
      generateMIDI d =
        [0x4D, 0x54, 0x68, 0x64, 0x00, 0x00, 0x00, 0x06,
         0x00, 0x00, 0x00, 0x01, 0x00, 0x60]
        ++ [0x4D, 0x54, 0x72, 0x6B] ++ beBytes4 events.length ++ events ∧
      List.IsSuffix [0x00, 0xFF, 0x2F, 0x00] (generateMIDI d) := by
  refine ⟨(trackData d).map toUint8, ?_, ?_⟩
  · unfold generateMIDI
    rw [List.map_append, List.map_append, List.map_append, List.length_map,
      lengthField_maps _ h]
    rfl
  · have hsplit : generateMIDI d =
        (([0x4D, 0x54, 0x68, 0x64, 0x00, 0x00, 0x00, 0x06,
           0x00, 0x00, 0x00, 0x01, 0x00, 0x60]
          ++ [0x4D, 0x54, 0x72, 0x6B]
          ++ lengthField (trackData d).length
          ++ (allNotes d).flatMap noteEvents : List Int)).map toUint8
        ++ [0x00, 0xFF, 0x2F, 0x00] := by
      unfold generateMIDI trackData
      simp [List.map_append, toUint8]
    rw [hsplit]
    exact List.suffix_append _ _

/-- Claim C2 witness: the four-note scale document. -/
theorem generateMIDI_structure_witness :
    (trackData fourNoteDoc).length < 2 ^ 32 ∧
    ∃ events : List Nat,
      generateMIDI fourNoteDoc =
        [0x4D, 0x54, 0x68, 0x64, 0x00, 0x00, 0x00, 0x06,
         0x00, 0x00, 0x00, 0x01, 0x00, 0x60]
        ++ [0x4D, 0x54, 0x72, 0x6B] ++ beBytes4 events.length ++ events ∧
      List.IsSuffix [0x00, 0xFF, 0x2F, 0x00] (generateMIDI fourNoteDoc) :=
  ⟨by decide, generateMIDI_structure fourNoteDoc (by decide)⟩

/-- The VLQ encoding of 480 is the fixed delta byte pair of the encoder. -/
lemma vlqEncode_480 : vlqEncode 480 = [0x83, 0x60] := by
  rw [vlqEncode]
  norm_num
  rw [vlqCont]
  norm_num

/-- The VLQ encoding of 96 (a quarter note at 96 ticks per quarter) is one
byte. -/
lemma vlqEncode_96 : vlqEncode 96 = [0x60] := by
  rw [vlqEncode]
  norm_num

/-- Claim C7 counterexample: for a quarter note (96 ticks at the division of
96 that the header declares) the Note-Off delta bytes the encoder emits are
0x83 0x60 — 480 ticks — not the VLQ encoding of the tick count of the note,
so the delta-time does not equal the duration tick count of the note. -/
theorem noteEvents_not_duration_delta :
    ¬ (noteEvents quarterC4 =
        [0x00, 0x90, pitchMidi { step := "C", octave := 4, alter := 0 }, 0x64] ++
          (vlqEncode (specDurationTicks quarterC4).toNat).map (fun b => (b : Int)) ++
          [0x80, pitchMidi { step := "C", octave := 4, alter := 0 }, 0x00]) := by
  intro hcontra
  rw [show (specDurationTicks quarterC4).toNat = 96 from rfl, vlqEncode_96] at hcontra
  revert hcontra
  decide

/-- Claim C7 (amended): for every pitch-bearing note the encoder emits, in
order, a zero delta, Note-On (status 0x90 on channel 0, the MIDI number of
the note, velocity 100), then the fixed delta 480 in VLQ form (0x83 0x60,
independent of the duration of the note), Note-Off (status 0x80 on channel
0, the same number, velocity 0). -/
theorem noteEvents_shape (n : Note) (p : Pitch) (h : n.pitch = some p) :
    noteEvents n =
      [0x00, 0x90, pitchMidi p, 0x64] ++ (vlqEncode 480).map (fun b => (b : Int)) ++
        [0x80, pitchMidi p, 0x00] ∧
    vlqEncode 480 = [0x83, 0x60] := by
  refine ⟨?_, vlqEncode_480⟩
  rw [noteEvents, h, vlqEncode_480]
  simp [pitchEvents]

/-- Claim C7 witness: the quarter note on middle C. -/
theorem noteEvents_shape_witness :
    quarterC4.pitch = some { step := "C", octave := 4, alter := 0 } ∧
    (noteEvents quarterC4 =
      [0x00, 0x90, pitchMidi { step := "C", octave := 4, alter := 0 }, 0x64] ++
        (vlqEncode 480).map (fun b => (b : Int)) ++
        [0x80, pitchMidi { step := "C", octave := 4, alter := 0 }, 0x00] ∧
     vlqEncode 480 = [0x83, 0x60]) :=
  ⟨rfl, noteEvents_shape quarterC4 { step := "C", octave := 4, alter := 0 } rfl⟩

/-- Claim C10: the encoder output is a function of the pitch sequence alone
— two documents whose note sequences agree pitchwise produce byte-identical
output however their durations and types differ — and every pitch-bearing
note contributes the fixed 0x83 0x60 delta before its Note-Off. -/
theorem generateMIDI_duration_blind (d1 d2 : Document)
    (h : (allNotes d1).map (fun n => n.pitch) = (allNotes d2).map (fun n => n.pitch)) :
    generateMIDI d1 = generateMIDI d2 ∧
    ∀ (n : Note) (p : Pitch), n.pitch = some p →
      ∃ mi, noteEvents n = [0x00, 0x90, mi, 0x64, 0x83, 0x60, 0x80, mi, 0x00] := by
  have hflat : ∀ dd : Document, (allNotes dd).flatMap noteEvents =
      ((allNotes dd).map (fun n => n.pitch)).flatMap pitchEvents := by
    intro dd
    rw [List.flatMap_map]
    rfl
  constructor
  · unfold generateMIDI trackData
    rw [hflat d1, hflat d2, h]
  · intro n p hp
    exact ⟨pitchMidi p, by simp [noteEvents, hp, pitchEvents]⟩

/-- Claim C10 witness: the quarter-note and half-note documents. -/
theorem generateMIDI_duration_blind_witness :
    generateMIDI docQuarter = generateMIDI docHalf ∧
    ∀ (n : Note) (p : Pitch), n.pitch = some p →
      ∃ mi, noteEvents n = [0x00, 0x90, mi, 0x64, 0x83, 0x60, 0x80, mi, 0x00] :=
  generateMIDI_duration_blind docQuarter docHalf (by decide)
